import Mathlib

/-!
# Verification of the font-picker asset-loading logic

Shallow embedding of the two source files of the `font-picker` repository:
`src/js/font-download.js` (catalog fetch and stylesheet injection) and
`src/FontPicker/FontPicker.js` (the dropdown widget UI).

The DOM `document.head` is modelled as a list of `<link>` elements in
insertion order; `document.getElementById` returns the first element with a
matching id, and setting `outerHTML = ''` removes that element.
`isFontAvailable` (defined in `src/js/is-font-available.js`, a runtime probe
of locally installed fonts) and the `FontManager` class are not among the
embedded files, so their results are passed in as parameters.
-/

set_option autoImplicit false

namespace FontPicker

/-- The character class matched by the JavaScript regex `\s`
(ASCII whitespace plus the Unicode space separators). -/
def isJsWs (c : Char) : Bool :=
  c = ' ' || c = '\t' || c = '\n' || c = '\r' || c = '\x0b' || c = '\x0c' ||
  c = '\u00A0' || c = '\u1680' || ('\u2000' ≤ c && c ≤ '\u200A') ||
  c = '\u2028' || c = '\u2029' || c = '\u202F' || c = '\u205F' ||
  c = '\u3000' || c = '\uFEFF'

/-- One step of `String.prototype.replace(/\s+/g, repl)`: `prevWs` records
whether the previous character was whitespace, so that a whole whitespace run
is replaced by a single copy of `repl`. -/
def replaceWsRunsAux (repl : List Char) : Bool → List Char → List Char
  | _, [] => []
  | prevWs, c :: rest =>
    if isJsWs c then
      (if prevWs then [] else repl) ++ replaceWsRunsAux repl true rest
    else
      c :: replaceWsRunsAux repl false rest

/-- JavaScript `s.replace(/\s+/g, repl)`: every maximal run of whitespace
characters is replaced by `repl`. -/
def jsReplaceWsRuns (s : String) (repl : String) : String :=
  ⟨replaceWsRunsAux repl.data false s.data⟩

/-- JavaScript `s.replace(/ /g, '+')`: every space character becomes `'+'`. -/
def jsSpaceToPlus (s : String) : String :=
  ⟨s.data.map (fun c => if c = ' ' then '+' else c)⟩

/-- Pair every list element with its index, starting from `n`
(the index argument JavaScript array callbacks receive). -/
def withIndexFrom {α : Type} : Nat → List α → List (Nat × α)
  | _, [] => []
  | n, c :: rest => (n, c) :: withIndexFrom (n + 1) rest

/-- JavaScript `s.split('').filter((x, n, s) => s.indexOf(x) === n).join('')`:
keep a character exactly when its position equals the position of its first
occurrence. -/
def jsUniqueChars (l : List Char) : List Char :=
  ((withIndexFrom 0 l).filter (fun p => l.indexOf p.2 == p.1)).map Prod.snd

/-- JavaScript `s.toLowerCase()`, applied characterwise (the font ids only
ever lowercase the ASCII family names of the catalog). -/
def jsToLower (s : String) : String :=
  ⟨s.data.map Char.toLower⟩

/-- A font object from the Google Fonts catalog: its `family` name and its
list of `variants`. -/
structure Font where
  family : String
  variants : List String
deriving DecidableEq, Repr

/-- A `<link rel="stylesheet">` element, identified by its `id` attribute and
carrying its `href`. -/
structure LinkEl where
  id : String
  href : String
deriving DecidableEq, Repr

/-- The `document.head`, as the list of stylesheet `<link>` children in
insertion order. -/
abbrev Doc := List LinkEl

/-- `document.getElementById`: the first element with the given id, if any. -/
def getById (d : Doc) (i : String) : Option LinkEl :=
  d.find? (fun l => l.id == i)

/-- `element.outerHTML = ''` on the result of `getElementById`: remove the
first element with the given id (a no-op when none exists). -/
def removeById : Doc → String → Doc
  | [], _ => []
  | l :: rest, i => if l.id == i then rest else l :: removeById rest i

/-- The variant selector appended to a stylesheet URL: `:regular` when the
font has a regular variant, otherwise the first listed variant
(`font.variants[0]`, the string `"undefined"` when the list is empty, as in
JavaScript). -/
def variantSuffix (font : Font) : String :=
  if font.variants.contains "regular" then ":regular"
  else ":" ++ font.variants.headD "undefined"

/-- The common prefix of both stylesheet URLs built in
`downloadFullFont`/`downloadPreviewFont`:
`'https://fonts.googleapis.com/css?family=' + family.replace(/ /g, '+')`
plus the variant selector. -/
def fontBaseUrl (font : Font) : String :=
  "https://fonts.googleapis.com/css?family=" ++ jsSpaceToPlus font.family ++
    variantSuffix font

/-- The `downloadChars` computed in `downloadPreviewFont`: the family name
with `replace(/\s+/g, '')` applied and then duplicate characters dropped via
`filter((x, n, s) => s.indexOf(x) === n)`. -/
def previewDownloadChars (family : String) : String :=
  ⟨jsUniqueChars (jsReplaceWsRuns family "").data⟩

/-- The URL of the preview stylesheet (`downloadPreviewFont`): the base URL
with the `text` query parameter appended. -/
def previewFontUrl (font : Font) : String :=
  fontBaseUrl font ++ "&text=" ++ previewDownloadChars font.family

/-- `downloadFullFont`: append a `<link>` with id `font-full-<fontId>` to the
document head. -/
def downloadFullFont (font : Font) (fontId : String) (d : Doc) : Doc :=
  d ++ [{ id := "font-full-" ++ fontId, href := fontBaseUrl font }]

/-- `downloadPreviewFont`: append a `<link>` with id `font-preview-<fontId>`
to the document head. -/
def downloadPreviewFont (font : Font) (fontId : String) (d : Doc) : Doc :=
  d ++ [{ id := "font-preview-" ++ fontId, href := previewFontUrl font }]

/-- The font id computed at the top of `checkFullFont`:
`font.family.replace(/\s+/g, '-').toLowerCase()`. -/
def checkFullFont_fontId (family : String) : String :=
  jsToLower (jsReplaceWsRuns family "-")

/-- The font id computed at the top of `checkPreviewFont`:
`font.family.replace(/\s+/g, '-').toLowerCase()`. -/
def checkPreviewFont_fontId (family : String) : String :=
  jsToLower (jsReplaceWsRuns family "-")

/-- `checkFullFont(font)`. `avail` is the value `isFontAvailable(font.family)`
returns at this call (the probe lives outside the embedded files). -/
def checkFullFont (avail : Bool) (font : Font) (d : Doc) : Doc :=
  let fontId := checkFullFont_fontId font.family
  if (getById d ("font-preview-" ++ fontId)).isSome then
    downloadFullFont font fontId (removeById d ("font-preview-" ++ fontId))
  else if (getById d ("font-full-" ++ fontId)).isNone && !avail then
    downloadFullFont font fontId d
  else d

/-- `checkPreviewFont(font)`. `avail` is the value
`isFontAvailable(font.family)` returns at this call. -/
def checkPreviewFont (avail : Bool) (font : Font) (d : Doc) : Doc :=
  let fontId := checkPreviewFont_fontId font.family
  if (getById d ("font-full-" ++ fontId)).isNone && !avail then
    downloadPreviewFont font fontId d
  else d

/-- A JavaScript value as produced by `response.json()` (plus `undefined`,
which property access can yield but JSON parsing cannot). -/
inductive JsValue where
  | undefined
  | null
  | bool (b : Bool)
  | num (n : Int)
  | str (s : String)
  | arr (elems : List JsValue)
  | obj (fields : List (String × JsValue))
deriving Repr

/-- JavaScript property access `v.k`: a `TypeError` on `null`/`undefined`,
the field's value (or `undefined` when absent) on an object, and `undefined`
on every other value. -/
def JsValue.getProp : JsValue → String → Except String JsValue
  | .null, _ => .error "TypeError"
  | .undefined, _ => .error "TypeError"
  | .obj fields, k =>
      .ok (((fields.find? (fun p => p.1 == k)).map Prod.snd).getD .undefined)
  | _, _ => .ok .undefined

/-- Whether a JavaScript value is an object carrying the given field. -/
def JsValue.hasField : JsValue → String → Bool
  | .obj fields, k => fields.any (fun p => p.1 == k)
  | _, _ => false

/-- The catalog URL requested by `fetchFontList`. -/
def fontListUrl (apiKey : String) : String :=
  "https://www.googleapis.com/webfonts/v1/webfonts?sort=popularity&key=" ++
    apiKey

/-- `fetchFontList(apiKey)`: one `window.fetch` GET of the catalog URL,
`response.json()`, then `return json.items`. `env` maps each URL to the JSON
body the network returns for it; the first component of the result is the
list of URLs requested, the second the returned value (`Except.error` when
the member access throws). -/
def fetchFontList (env : String → JsValue) (apiKey : String) :
    List String × Except String JsValue :=
  let url := fontListUrl apiKey
  ([url], (env url).getProp "items")

/-- The options object handed to the `FontPicker` constructor (only `name` is
read by the UI code). -/
structure PickerOptions where
  name : Option String
deriving Repr

/-- JavaScript truthiness of `options.name`: absent and `''` are falsy. -/
def jsTruthyName (o : PickerOptions) : Bool :=
  match o.name with
  | none => false
  | some s => s ≠ ""

/-- `this.pickerSuffix`: `'-' + options.name` when `options.name` is truthy,
otherwise `''`. -/
def pickerSuffix (o : PickerOptions) : String :=
  if jsTruthyName o then "-" ++ (o.name.getD "") else ""

/-- `this.pickerId = 'font-picker' + this.pickerSuffix`. -/
def pickerId (o : PickerOptions) : String :=
  "font-picker" ++ pickerSuffix o

/-- `element.classList.add(c)`: append the class unless already present. -/
def classListAdd (l : List String) (c : String) : List String :=
  if l.contains c then l else l ++ [c]

/-- `element.classList.remove(c)`: drop the class. -/
def classListRemove (l : List String) (c : String) : List String :=
  l.filter (fun x => x != c)

/-- The classes of the dropdown icon as `generateUI` creates it
(`classList.add('dropdown-icon', 'loading')`). -/
def iconInit : List String :=
  classListAdd (classListAdd [] "dropdown-icon") "loading"

/-- The outcome of `fontManager.init()`: fulfilled, or rejected with an
error (rendered to the string `console.error` would print). -/
inductive InitResult where
  | ok
  | err (e : String)

/-- The icon classes after the `init()` promise settles: `.then` removes
`loading` and adds `finished`; `.catch` removes `loading` and adds `error`. -/
def iconResolve : InitResult → List String
  | .ok => classListAdd (classListRemove iconInit "loading") "finished"
  | .err _ => classListAdd (classListRemove iconInit "loading") "error"

/-- The two class states the dropdown icon goes through: as created, then
after the one `.then`/`.catch` transition (no other code touches it). -/
def iconStates (r : InitResult) : List (List String) :=
  [iconInit, iconResolve r]

/-- The three status classes of the dropdown icon. -/
def isStatusClass (c : String) : Bool :=
  c == "loading" || c == "finished" || c == "error"

/-- The font id computed for each list entry in `generateUI`:
`fontFamily.replace(/\s+/g, '-').toLowerCase()`. -/
def generateUI_fontId (family : String) : String :=
  jsToLower (jsReplaceWsRuns family "-")

/-- A `<li>` entry's font button, by its class list. -/
structure FontEntry where
  classes : List String
deriving DecidableEq, Repr

/-- The class list of the `i`-th entry's button (empty for an index outside
the list). -/
def entryClasses (entries : List FontEntry) (i : Nat) : List String :=
  ((entries.getD i ⟨[]⟩)).classes

/-- The list entries built in the `.then` branch of `generateUI`: each button
gets class `font-<fontId><pickerSuffix>`, and additionally `active-font` when
its family equals the active font's family. -/
def generateEntries (fonts : List Font) (suffix activeFamily : String) :
    List FontEntry :=
  fonts.map (fun f =>
    let base := classListAdd [] ("font-" ++ generateUI_fontId f.family ++ suffix)
    if f.family = activeFamily then ⟨classListAdd base "active-font"⟩
    else ⟨base⟩)

/-- `this.activeFontA` after the `.then` branch: the button of the last entry
whose family equals the active family (the loop overwrites the reference on
every match), `none` when no entry matches. -/
def generateActiveRef (fonts : List Font) (activeFamily : String) :
    Option Nat :=
  (withIndexFrom 0 fonts).foldl
    (fun acc p => if p.2.family = activeFamily then some p.1 else acc) none

/-- The message logged and placed in the container's `title` by the `.catch`
branch of `generateUI`. -/
def errFetchMessage : String :=
  "Error trying to fetch the list of available fonts"

/-- The widget state `generateUI` leaves behind once the `init()` promise has
settled. Effect-recording fields: `consoleErrors` is the log of
`console.error` calls and `initCalls` counts invocations of
`fontManager.init()`. -/
structure PickerUI where
  expanded : Bool
  dropdownFontHTML : String
  iconClasses : List String
  entries : List FontEntry
  ulAttached : Bool
  activeFontIdx : Option Nat
  containerTitle : Option String
  consoleErrors : List String
  initCalls : Nat
deriving Repr

/-- `generateUI()` (and hence the `FontPicker` constructor): throw when no
element with id `this.pickerId` exists; otherwise build the button and icon,
call `fontManager.init()` once, and settle according to its outcome `r`.
`doc` is the set of element ids present in the page, `activeFamily` the
family of `fontManager.activeFont`, and `fonts` the list `fontManager.fonts`
holds after a successful `init()`. -/
def generateUI (doc : List String) (opts : PickerOptions)
    (activeFamily : String) (fonts : List Font) (r : InitResult) :
    Except String PickerUI :=
  if doc.contains (pickerId opts) then
    match r with
    | .ok =>
        .ok { expanded := false
              dropdownFontHTML := activeFamily
              iconClasses := iconResolve .ok
              entries := generateEntries fonts (pickerSuffix opts) activeFamily
              ulAttached := true
              activeFontIdx := generateActiveRef fonts activeFamily
              containerTitle := none
              consoleErrors := []
              initCalls := 1 }
    | .err e =>
        .ok { expanded := false
              dropdownFontHTML := activeFamily
              iconClasses := iconResolve (.err e)
              entries := []
              ulAttached := false
              activeFontIdx := none
              containerTitle := some errFetchMessage
              consoleErrors := [errFetchMessage, e]
              initCalls := 1 }
  else
    .error ("Missing div with id=\"" ++ pickerId opts ++ "\"")

/-- `onScroll()`: compute
`ceil((scrollTop + clientHeight) / (scrollHeight / fonts.length))` and call
`fontManager.downloadPreviews` with that index plus 5; the result is the list
of arguments passed to `downloadPreviews` (scroll metrics are JavaScript
numbers, modelled as exact rationals). -/
def onScroll (scrollTop clientHeight scrollHeight : ℚ) (numFonts : Nat) :
    List Int :=
  let elementHeight := scrollHeight / (numFonts : ℚ)
  let downloadIndex := ⌈(scrollTop + clientHeight) / elementHeight⌉
  [downloadIndex + 5]

/-- `FontPicker.setActiveFont(fontFamily)` acting on the UI state.
`listIndex` is the value `fontManager.setActiveFont(fontFamily)` returned
(the font's list index, negative on failure). On success the dropdown text
is replaced, `active-font` moves from the old `activeFontA` to the entry at
`listIndex`, and the reference is updated; otherwise nothing happens. -/
def setActiveFontUI (ui : PickerUI) (fontFamily : String) (listIndex : Int) :
    PickerUI :=
  if listIndex ≥ 0 then
    let i := listIndex.toNat
    let cleared :=
      match ui.activeFontIdx with
      | some j => ui.entries.set j
          ⟨classListRemove (entryClasses ui.entries j) "active-font"⟩
      | none => ui.entries
    { ui with
      dropdownFontHTML := fontFamily
      entries := cleared.set i ⟨classListAdd (entryClasses cleared i) "active-font"⟩
      activeFontIdx := some i }
  else ui

/-- A call to one of the two check functions, together with the value the
`isFontAvailable` probe returns at that moment (the probe inspects the live
font rendering, so consecutive calls may see different values). -/
inductive FontOp where
  | full (font : Font) (avail : Bool)
  | preview (font : Font) (avail : Bool)

/-- Apply one check call to the document head. -/
def applyOp (d : Doc) : FontOp → Doc
  | .full f a => checkFullFont a f d
  | .preview f a => checkPreviewFont a f d

/-- Run a sequence of check calls left to right. -/
def runOps : Doc → List FontOp → Doc
  | d, [] => d
  | d, op :: ops => runOps (applyOp d op) ops

/-- The number of elements of the head with the given id. -/
def countId (d : Doc) (i : String) : Nat :=
  (d.filter (fun l => l.id == i)).length

/-- The document contains at most one of the two stylesheets of any font id
(the claim's initial condition, as a per-id invariant). -/
def AtMostOnePerFont (d : Doc) : Prop :=
  ∀ fid : String,
    countId d ("font-preview-" ++ fid) + countId d ("font-full-" ++ fid) ≤ 1

/-- A trace is guarded when `checkPreviewFont` is never called while a
preview link for the same font is already in the document. -/
def GuardedOps : Doc → List FontOp → Prop
  | _, [] => True
  | d, op :: ops =>
    (match op with
     | .preview f _ =>
         getById d ("font-preview-" ++ checkPreviewFont_fontId f.family) = none
     | .full _ _ => True) ∧ GuardedOps (applyOp d op) ops

/-- The spec's description of the preview text: keep the first occurrence of
every character, in order. Spec-side counterpart of the `indexOf` filter in
`downloadPreviewFont`. -/
def firstOccDedup : List Char → List Char
  | [] => []
  | c :: rest => c :: firstOccDedup (rest.filter (fun x => x != c))
termination_by l => l.length
decreasing_by
  simp only [List.length_cons]
  exact Nat.lt_succ_of_le (List.length_filter_le _ _)

/-- The preview `text` parameter as the spec words it: the distinct
characters of the family name, whitespace removed, duplicates dropped keeping
the first occurrence. -/
def specDistinctNameChars (family : String) : String :=
  ⟨firstOccDedup (family.data.filter (fun c => !isJsWs c))⟩

/-! ## Theorems -/

/-- Replacing whitespace runs by the empty string is the same as filtering
the whitespace characters out. -/
theorem replaceWsRunsAux_nil (l : List Char) :
    ∀ b : Bool, replaceWsRunsAux [] b l = l.filter (fun c => !isJsWs c) := by
  induction l with
  | nil => intro b; rfl
  | cons c rest ih =>
      intro b
      simp only [replaceWsRunsAux, List.filter_cons]
      cases hc : isJsWs c with
      | true => simp [hc, ih]
      | false => simp [hc, ih]

/-- Every index produced by `withIndexFrom k` is at least `k`. -/
theorem withIndexFrom_le {α : Type} (l : List α) :
    ∀ (k : Nat), ∀ p ∈ withIndexFrom k l, k ≤ p.1 := by
  induction l with
  | nil => intro k p hp; cases hp
  | cons c rest ih =>
      intro k p hp
      simp only [withIndexFrom] at hp
      rcases List.mem_cons.mp hp with h | h
      · subst h; exact Nat.le_refl k
      · exact Nat.le_of_succ_le (ih (k + 1) p h)

/-- The `indexOf`-based uniqueness filter of `downloadPreviewFont`, with the
positions shifted by `k` and restricted by a predicate `P`, keeps exactly the
first occurrences: it agrees with `firstOccDedup` on the `P`-filtered list. -/
theorem jsUnique_aux (l : List Char) :
    ∀ (k : Nat) (P : Char → Bool),
      ((withIndexFrom k l).filter
          (fun p => P p.2 && (l.indexOf p.2 + k == p.1))).map Prod.snd =
        firstOccDedup (l.filter P) := by
  induction l with
  | nil => intro k P; simp [withIndexFrom, firstOccDedup]
  | cons c rest ih =>
      intro k P
      have hhead : (P c && ((c :: rest).indexOf c + k == k)) = P c := by
        rw [List.indexOf_cons_self]
        simp
      have htail :
          (withIndexFrom (k + 1) rest).filter
              (fun p => P p.2 && ((c :: rest).indexOf p.2 + k == p.1)) =
            (withIndexFrom (k + 1) rest).filter
              (fun p => (P p.2 && (p.2 != c)) &&
                (rest.indexOf p.2 + (k + 1) == p.1)) := by
        apply List.filter_congr
        intro p hp
        have hk := withIndexFrom_le rest (k + 1) p hp
        by_cases hxc : p.2 = c
        · rw [hxc, List.indexOf_cons_self]
          have h1 : (0 + k == p.1) = false := by
            simp only [Nat.zero_add, beq_eq_false_iff_ne]
            omega
          have h2 : (c != c) = false := by simp
          rw [h1, h2]
          simp
        · rw [List.indexOf_cons_ne rest (fun h => hxc h.symm)]
          have h1 : Nat.succ (rest.indexOf p.2) + k =
              rest.indexOf p.2 + (k + 1) := by omega
          rw [h1]
          have h2 : (p.2 != c) = true := bne_iff_ne.mpr hxc
          rw [h2, Bool.and_true]
      have hih := ih (k + 1) (fun x => P x && (x != c))
      simp only [] at hih
      rw [show withIndexFrom k (c :: rest) = (k, c) :: withIndexFrom (k + 1) rest
            from rfl,
          List.filter_cons, hhead]
      cases hPc : P c with
      | true =>
          rw [if_pos rfl, List.map_cons, htail, hih, List.filter_cons, hPc,
              if_pos rfl, firstOccDedup, List.filter_filter]
          have hflip : rest.filter (fun a => (a != c) && P a) =
              rest.filter (fun a => P a && (a != c)) :=
            List.filter_congr (fun x _ => Bool.and_comm _ _)
          rw [hflip]
      | false =>
          rw [if_neg (fun h => Bool.noConfusion h), htail, hih,
              List.filter_cons, hPc, if_neg (fun h => Bool.noConfusion h)]
          have hdrop : rest.filter (fun a => P a && (a != c)) =
              rest.filter P := by
            apply List.filter_congr
            intro x _
            cases hPx : P x with
            | false => rfl
            | true =>
                have hxc : x ≠ c := by
                  intro h
                  rw [h, hPc] at hPx
                  cases hPx
                rw [bne_iff_ne.mpr hxc, Bool.and_true]
          rw [hdrop]

/-- The JavaScript uniqueness idiom keeps exactly the first occurrence of
every character. -/
theorem jsUniqueChars_eq_firstOccDedup (l : List Char) :
    jsUniqueChars l = firstOccDedup l := by
  have h := jsUnique_aux l 0 (fun _ => true)
  simp only [Bool.true_and, Nat.add_zero, List.filter_true] at h
  exact h

/-- `firstOccDedup` returns a subsequence of its input. -/
theorem firstOccDedup_sublist (l : List Char) :
    (firstOccDedup l).Sublist l := by
  induction l using firstOccDedup.induct with
  | case1 => rw [firstOccDedup]
  | case2 c rest ih =>
      rw [firstOccDedup]
      exact (ih.trans (List.filter_sublist rest)).cons₂ c

/-- `firstOccDedup` keeps exactly the characters of its input. -/
theorem mem_firstOccDedup (l : List Char) (x : Char) :
    x ∈ firstOccDedup l ↔ x ∈ l := by
  induction l using firstOccDedup.induct with
  | case1 => rw [firstOccDedup]
  | case2 c rest ih =>
      rw [firstOccDedup]
      simp only [List.mem_cons, ih, List.mem_filter]
      constructor
      · rintro (rfl | ⟨h, _⟩)
        · exact .inl rfl
        · exact .inr h
      · rintro (rfl | h)
        · exact .inl rfl
        · by_cases hxc : x = c
          · exact .inl hxc
          · exact .inr ⟨h, bne_iff_ne.mpr hxc⟩

/-- `firstOccDedup` contains no duplicates. -/
theorem firstOccDedup_nodup (l : List Char) :
    (firstOccDedup l).Nodup := by
  induction l using firstOccDedup.induct with
  | case1 => rw [firstOccDedup]; exact List.nodup_nil
  | case2 c rest ih =>
      rw [firstOccDedup]
      refine List.nodup_cons.mpr ⟨?_, ih⟩
      intro hc
      have hmem := (mem_firstOccDedup _ _).mp hc
      rw [List.mem_filter] at hmem
      simp at hmem

/-- The `downloadChars` computed by the source equal the spec's distinct
characters of the family name. -/
theorem previewDownloadChars_eq_spec (family : String) :
    previewDownloadChars family = specDistinctNameChars family := by
  unfold previewDownloadChars specDistinctNameChars
  apply String.ext
  simp only []
  rw [show (jsReplaceWsRuns family "").data =
        replaceWsRunsAux [] false family.data from rfl,
      replaceWsRunsAux_nil, jsUniqueChars_eq_firstOccDedup]

/-- C3: the preview stylesheet URL built by `downloadPreviewFont` carries a
`text` query parameter holding exactly the distinct characters of the font's
family name: whitespace removed, each remaining character exactly once
(no duplicates), in the order of first occurrence (a subsequence of the
whitespace-stripped name containing every one of its characters). -/
theorem preview_text_param (font : Font) :
    previewFontUrl font =
      fontBaseUrl font ++ "&text=" ++ specDistinctNameChars font.family ∧
    (specDistinctNameChars font.family).data.Nodup ∧
    (specDistinctNameChars font.family).data.Sublist
      (font.family.data.filter (fun c => !isJsWs c)) ∧
    (∀ c : Char, c ∈ (specDistinctNameChars font.family).data ↔
      (c ∈ font.family.data ∧ isJsWs c = false)) := by
  refine ⟨?_, ?_, ?_, ?_⟩
  · unfold previewFontUrl
    rw [previewDownloadChars_eq_spec]
  · exact firstOccDedup_nodup _
  · exact firstOccDedup_sublist _
  · intro c
    show c ∈ firstOccDedup (font.family.data.filter (fun c => !isJsWs c)) ↔ _
    rw [mem_firstOccDedup, List.mem_filter, Bool.not_eq_true']

/-- C1: `checkPreviewFont` injects the preview stylesheet link
(id `font-preview-<fontId>`) at the end of the document head exactly when no
full stylesheet link (id `font-full-<fontId>`) for that font exists and the
family is not available locally; in every other case the document is left
unchanged. -/
theorem checkPreviewFont_injects_iff (avail : Bool) (font : Font) (d : Doc) :
    (getById d ("font-full-" ++ checkPreviewFont_fontId font.family) = none ∧
        avail = false →
      checkPreviewFont avail font d =
        d ++ [{ id := "font-preview-" ++ checkPreviewFont_fontId font.family,
                href := previewFontUrl font }]) ∧
    (¬ (getById d ("font-full-" ++ checkPreviewFont_fontId font.family) = none ∧
        avail = false) →
      checkPreviewFont avail font d = d) := by
  constructor
  · rintro ⟨h1, h2⟩
    subst h2
    simp [checkPreviewFont, downloadPreviewFont, h1]
  · intro h
    unfold checkPreviewFont downloadPreviewFont
    rcases hG : getById d ("font-full-" ++ checkPreviewFont_fontId font.family)
      with _ | l
    · have hA : avail = true := by
        cases avail
        · exact absurd ⟨hG, rfl⟩ h
        · rfl
      subst hA
      simp
    · simp [hG]

/-- Witness for C1 at the font `{family := "My Font", variants := ["regular"]}`
and the empty document. -/
theorem checkPreviewFont_injects_iff_witness :
    checkPreviewFont false ⟨"My Font", ["regular"]⟩ [] =
      [] ++ [{ id := "font-preview-" ++
                 checkPreviewFont_fontId (Font.mk "My Font" ["regular"]).family,
               href := previewFontUrl ⟨"My Font", ["regular"]⟩ }] :=
  (checkPreviewFont_injects_iff false ⟨"My Font", ["regular"]⟩ []).1 ⟨rfl, rfl⟩

/-- C8: the font id computed by `checkFullFont`, by `checkPreviewFont` and by
`generateUI` for the list-entry class coincide for every family, and each is
the family with whitespace runs replaced by `-` and then lowercased; hence
the stylesheet link ids and the list-entry class name are built from the same
font id. -/
theorem fontId_computations_agree (family : String) (font : Font) (d : Doc) :
    checkFullFont_fontId family = generateUI_fontId family ∧
    checkPreviewFont_fontId family = generateUI_fontId family ∧
    generateUI_fontId family = jsToLower (jsReplaceWsRuns family "-") ∧
    downloadFullFont font (checkFullFont_fontId font.family) d =
      d ++ [{ id := "font-full-" ++ generateUI_fontId font.family,
              href := fontBaseUrl font }] ∧
    downloadPreviewFont font (checkPreviewFont_fontId font.family) d =
      d ++ [{ id := "font-preview-" ++ generateUI_fontId font.family,
              href := previewFontUrl font }] :=
  ⟨rfl, rfl, rfl, rfl, rfl⟩

/-- C9: `generateUI` (and hence the constructor) throws an error naming the
missing id exactly when the document has no element with id
`font-picker<suffix>`; when the element exists it returns normally. -/
theorem generateUI_throws_iff_missing_div (doc : List String)
    (opts : PickerOptions) (activeFamily : String) (fonts : List Font)
    (r : InitResult) :
    (doc.contains (pickerId opts) = false →
      generateUI doc opts activeFamily fonts r =
        .error ("Missing div with id=\"" ++ pickerId opts ++ "\"")) ∧
    (doc.contains (pickerId opts) = true →
      ∃ ui, generateUI doc opts activeFamily fonts r = .ok ui) := by
  constructor
  · intro h
    have h' : pickerId opts ∉ doc := by simpa using h
    simp [generateUI, h']
  · intro h
    have h' : pickerId opts ∈ doc := by simpa using h
    cases r with
    | ok => exact ⟨_, by unfold generateUI; rw [if_pos h]⟩
    | err e => exact ⟨_, by unfold generateUI; rw [if_pos h]⟩

/-- Witness for C9: with no matching div `generateUI` throws the message
naming `font-picker`; with the div present it returns normally. -/
theorem generateUI_throws_iff_missing_div_witness :
    (generateUI [] ⟨none⟩ "Arial" [] .ok =
      .error ("Missing div with id=\"" ++ pickerId ⟨none⟩ ++ "\"")) ∧
    (∃ ui, generateUI ["font-picker"] ⟨none⟩ "Arial" [] .ok = .ok ui) :=
  ⟨(generateUI_throws_iff_missing_div [] ⟨none⟩ "Arial" [] .ok).1 (by decide),
   (generateUI_throws_iff_missing_div ["font-picker"] ⟨none⟩ "Arial" [] .ok).2
     (by decide)⟩

/-- C5: when `fontManager.init()` rejects, `generateUI` returns normally (the
`.catch` swallows the error), the icon ends in the `error` state, the
container's `title` is the error message, the two `console.error` lines are
the only logging, no list entries are rendered and the list is not attached,
and `init` was called exactly once (no retry). -/
theorem generateUI_catch_only_logs (doc : List String) (opts : PickerOptions)
    (activeFamily : String) (fonts : List Font) (e : String)
    (h : doc.contains (pickerId opts) = true) :
    ∃ ui, generateUI doc opts activeFamily fonts (.err e) = .ok ui ∧
      ui.iconClasses = ["dropdown-icon", "error"] ∧
      ui.containerTitle = some errFetchMessage ∧
      ui.entries = [] ∧
      ui.ulAttached = false ∧
      ui.consoleErrors = [errFetchMessage, e] ∧
      ui.initCalls = 1 := by
  have h' : pickerId opts ∈ doc := by simpa using h
  exact ⟨{ expanded := false, dropdownFontHTML := activeFamily,
           iconClasses := iconResolve (.err e), entries := [],
           ulAttached := false, activeFontIdx := none,
           containerTitle := some errFetchMessage,
           consoleErrors := [errFetchMessage, e], initCalls := 1 },
         by unfold generateUI; rw [if_pos h], rfl, rfl, rfl, rfl, rfl, rfl⟩

/-- Witness for C5 with the div present and a concrete rejection. -/
theorem generateUI_catch_only_logs_witness :
    ∃ ui, generateUI ["font-picker"] ⟨none⟩ "Arial" [] (.err "boom") = .ok ui ∧
      ui.iconClasses = ["dropdown-icon", "error"] ∧
      ui.containerTitle = some errFetchMessage ∧
      ui.entries = [] ∧
      ui.ulAttached = false ∧
      ui.consoleErrors = [errFetchMessage, "boom"] ∧
      ui.initCalls = 1 :=
  generateUI_catch_only_logs ["font-picker"] ⟨none⟩ "Arial" [] "boom" (by decide)

/-- C6: the dropdown icon is created in the `loading` state, every state in
its trace carries exactly one of the classes `loading`/`finished`/`error`,
and the single `.then`/`.catch` transition moves it to `finished` on success
and to `error` on failure; the trace has exactly these two states, so the
icon never changes again afterwards. -/
theorem dropdown_icon_three_state (r : InitResult) :
    iconInit = ["dropdown-icon", "loading"] ∧
    (iconStates r).all (fun s => (s.filter isStatusClass).length == 1) = true ∧
    iconResolve .ok = ["dropdown-icon", "finished"] ∧
    (∀ e, iconResolve (.err e) = ["dropdown-icon", "error"]) ∧
    iconStates r = [iconInit, iconResolve r] := by
  refine ⟨rfl, ?_, rfl, fun _ => rfl, rfl⟩
  cases r <;> rfl

/-- C7: on a scroll event with a non-empty font list, exactly one
`downloadPreviews` call is made, with argument
`ceil((scrollTop + clientHeight) / (scrollHeight / numFonts)) + 5`. -/
theorem onScroll_download_index (scrollTop clientHeight scrollHeight : ℚ)
    (numFonts : Nat) (h : 0 < numFonts) :
    onScroll scrollTop clientHeight scrollHeight numFonts =
      [⌈(scrollTop + clientHeight) / (scrollHeight / (numFonts : ℚ))⌉ + 5] :=
  rfl

/-- Witness for C7 at concrete scroll metrics. -/
theorem onScroll_download_index_witness :
    0 < 50 ∧
    onScroll 0 100 1000 50 =
      [⌈((0 : ℚ) + 100) / ((1000 : ℚ) / ((50 : Nat) : ℚ))⌉ + 5] :=
  ⟨by decide, onScroll_download_index 0 100 1000 50 (by decide)⟩

/-- C10: when `fontManager.setActiveFont` reports failure (a negative list
index), `FontPicker.setActiveFont` leaves the whole UI state unchanged — in
particular the dropdown button text and the `active-font` highlight keep
their previous values. -/
theorem setActiveFont_failure_frame (ui : PickerUI) (fontFamily : String)
    (listIndex : Int) (h : listIndex < 0) :
    setActiveFontUI ui fontFamily listIndex = ui := by
  unfold setActiveFontUI
  rw [if_neg (by omega)]

/-- Witness for C10 at a concrete UI state and index `-1`. -/
theorem setActiveFont_failure_frame_witness :
    setActiveFontUI
      { expanded := false, dropdownFontHTML := "Arial",
        iconClasses := ["dropdown-icon", "finished"],
        entries := [⟨["font-arial", "active-font"]⟩, ⟨["font-roboto"]⟩],
        ulAttached := true, activeFontIdx := some 0, containerTitle := none,
        consoleErrors := [], initCalls := 1 }
      "Roboto" (-1) =
      { expanded := false, dropdownFontHTML := "Arial",
        iconClasses := ["dropdown-icon", "finished"],
        entries := [⟨["font-arial", "active-font"]⟩, ⟨["font-roboto"]⟩],
        ulAttached := true, activeFontIdx := some 0, containerTitle := none,
        consoleErrors := [], initCalls := 1 } :=
  setActiveFont_failure_frame _ "Roboto" (-1) (by decide)

/-- Property access yields `undefined` (never a throw) on every value that is
neither `null` nor `undefined` and lacks the field. -/
theorem getProp_undefined_of_not_hasField (v : JsValue) (k : String)
    (h1 : v ≠ .null) (h2 : v ≠ .undefined) (h3 : v.hasField k = false) :
    v.getProp k = .ok .undefined := by
  cases v with
  | null => exact absurd rfl h1
  | undefined => exact absurd rfl h2
  | obj fields =>
      have hfind : fields.find? (fun p => p.1 == k) = none := by
        rw [List.find?_eq_none]
        intro x hx hpx
        simp only [JsValue.hasField, List.any_eq_false] at h3
        exact h3 x hx hpx
      simp [JsValue.getProp, hfind]
  | bool b => rfl
  | num n => rfl
  | str s => rfl
  | arr elems => rfl

/-- C4 counterexample: a response whose JSON body is `null` lacks `items`,
yet `fetchFontList` throws a `TypeError` instead of returning `undefined`. -/
theorem fetchFontList_null_body_throws :
    JsValue.hasField ((fun _ => JsValue.null) (fontListUrl "key")) "items" =
        false ∧
    (fetchFontList (fun _ => JsValue.null) "key").2 = .error "TypeError" :=
  ⟨rfl, rfl⟩

/-- C4 (amended): `fetchFontList` issues the single GET of the catalog URL
and returns the response's `items` field unchanged, with no validation: for
every response body that is neither `null` nor `undefined` and lacks
`items`, it returns `undefined` rather than failing. -/
theorem fetchFontList_single_get_items (env : String → JsValue)
    (apiKey : String) :
    (fetchFontList env apiKey).1 = [fontListUrl apiKey] ∧
    (fetchFontList env apiKey).2 = (env (fontListUrl apiKey)).getProp "items" ∧
    (env (fontListUrl apiKey) ≠ .null →
      env (fontListUrl apiKey) ≠ .undefined →
      (env (fontListUrl apiKey)).hasField "items" = false →
      (fetchFontList env apiKey).2 = .ok .undefined) :=
  ⟨rfl, rfl, fun h1 h2 h3 =>
    getProp_undefined_of_not_hasField (env (fontListUrl apiKey)) "items" h1 h2 h3⟩

/-- Witness for C4 (amended): a response body with a `kind` field but no
`items` field yields `undefined`, and the one request hits the catalog URL. -/
theorem fetchFontList_single_get_items_witness :
    (fetchFontList (fun _ => JsValue.obj [("kind", JsValue.str "x")]) "k").1 =
        [fontListUrl "k"] ∧
    (fetchFontList (fun _ => JsValue.obj [("kind", JsValue.str "x")]) "k").2 =
        .ok .undefined := by
  have h := fetchFontList_single_get_items
    (fun _ => JsValue.obj [("kind", JsValue.str "x")]) "k"
  exact ⟨h.1, h.2.2 (fun hc => nomatch hc) (fun hc => nomatch hc) rfl⟩

theorem countId_cons (l : LinkEl) (d : Doc) (i : String) :
    countId (l :: d) i = countId d i + (if l.id == i then 1 else 0) := by
  simp only [countId, List.filter_cons]
  split
  · simp [List.length_cons]
  · simp

theorem countId_append (d d' : Doc) (i : String) :
    countId (d ++ d') i = countId d i + countId d' i := by
  simp [countId, List.filter_append]

theorem countId_singleton (l : LinkEl) (i : String) :
    countId [l] i = if l.id == i then 1 else 0 := by
  rw [countId_cons]
  exact Nat.zero_add _

theorem getById_eq_none_iff (d : Doc) (i : String) :
    getById d i = none ↔ countId d i = 0 := by
  rw [getById, List.find?_eq_none, countId, List.length_eq_zero,
    List.filter_eq_nil_iff]

theorem getById_isSome_iff (d : Doc) (i : String) :
    (getById d i).isSome = true ↔ countId d i ≠ 0 := by
  rw [Option.isSome_iff_ne_none]
  constructor
  · intro h hc
    exact h ((getById_eq_none_iff d i).mpr hc)
  · intro h hc
    exact h ((getById_eq_none_iff d i).mp hc)

/-- Removing the first element with id `i` decrements the count of `i` by one
when such an element exists. -/
theorem countId_removeById (d : Doc) (i : String)
    (h : (getById d i).isSome = true) :
    countId (removeById d i) i = countId d i - 1 := by
  induction d with
  | nil => cases h
  | cons l rest ih =>
      rw [removeById]
      split
      · next hl =>
          rw [countId_cons, if_pos hl]
          omega
      · next hl =>
          have hfind : getById (l :: rest) i = getById rest i := by
            rw [getById, getById]
            exact List.find?_cons_of_neg rest hl
          rw [countId_cons, countId_cons, if_neg hl]
          simp only [Nat.add_zero]
          exact ih (by rwa [hfind] at h)

/-- Removing an element with id `i` leaves the count of every other id
unchanged. -/
theorem countId_removeById_ne (d : Doc) (i j : String) (h : j ≠ i) :
    countId (removeById d i) j = countId d j := by
  induction d with
  | nil => rfl
  | cons l rest ih =>
      rw [removeById]
      split
      · next hl =>
          rw [countId_cons]
          have hlj : (l.id == j) = false := by
            rw [beq_eq_false_iff_ne]
            intro hc
            exact h (hc ▸ beq_iff_eq.mp hl)
          rw [hlj, if_neg (fun hc => Bool.noConfusion hc), Nat.add_zero]
      · next _ =>
          rw [countId_cons, countId_cons, ih]

/-- The two id prefixes can never collide, whatever the font ids. -/
theorem preview_id_ne_full_id (a b : String) :
    ("font-preview-" ++ a) ≠ ("font-full-" ++ b) := by
  intro h
  have h' : ("font-preview-" : String).data ++ a.data =
      ("font-full-" : String).data ++ b.data := by
    have hd := congrArg String.data h
    rwa [String.data_append, String.data_append] at hd
  have h6 := congrArg (List.take 6) h'
  rw [List.take_append_of_le_length (by decide),
    List.take_append_of_le_length (by decide)] at h6
  exact absurd h6 (by decide)

/-- Appending to a fixed prefix is injective on strings. -/
theorem string_append_left_cancel {p a b : String} (h : p ++ a = p ++ b) :
    a = b := by
  have hd := congrArg String.data h
  rw [String.data_append, String.data_append] at hd
  exact String.ext (List.append_cancel_left hd)

/-- `checkFullFont`, with the font id written out. -/
theorem checkFullFont_eq (avail : Bool) (font : Font) (d : Doc) :
    checkFullFont avail font d =
      (if (getById d
            ("font-preview-" ++ checkFullFont_fontId font.family)).isSome then
        downloadFullFont font (checkFullFont_fontId font.family)
          (removeById d
            ("font-preview-" ++ checkFullFont_fontId font.family))
      else if ((getById d
            ("font-full-" ++ checkFullFont_fontId font.family)).isNone &&
          !avail) then
        downloadFullFont font (checkFullFont_fontId font.family) d
      else d) := rfl

/-- `checkPreviewFont`, with the font id written out. -/
theorem checkPreviewFont_eq (avail : Bool) (font : Font) (d : Doc) :
    checkPreviewFont avail font d =
      (if ((getById d
            ("font-full-" ++ checkPreviewFont_fontId font.family)).isNone &&
          !avail) then
        downloadPreviewFont font (checkPreviewFont_fontId font.family) d
      else d) := rfl

/-- `checkFullFont` preserves the per-font at-most-one invariant. -/
theorem checkFullFont_preserves (avail : Bool) (font : Font) (d : Doc)
    (hinv : AtMostOnePerFont d) :
    AtMostOnePerFont (checkFullFont avail font d) := by
  intro fid
  have hck := checkFullFont_eq avail font d
  generalize hgen : checkFullFont_fontId font.family = i at hck
  rw [hck]
  have hinv_fid := hinv fid
  have hinv_i := hinv i
  split
  · next hprev =>
      by_cases hfid : fid = i
      · subst hfid
        have hp : countId d ("font-preview-" ++ fid) ≠ 0 :=
          (getById_isSome_iff _ _).mp hprev
        rw [downloadFullFont, countId_append, countId_append,
          countId_removeById d _ hprev,
          countId_removeById_ne d _ _
            (fun hc => preview_id_ne_full_id fid fid hc.symm),
          countId_singleton, countId_singleton,
          if_neg (fun hc => preview_id_ne_full_id fid fid (beq_iff_eq.mp hc).symm),
          if_pos (beq_iff_eq.mpr rfl)]
        omega
      · have hppi : ("font-preview-" ++ fid) ≠ ("font-preview-" ++ i) :=
          fun hc => hfid (string_append_left_cancel hc)
        have hffi : ("font-full-" ++ i) ≠ ("font-full-" ++ fid) :=
          fun hc => hfid (string_append_left_cancel hc).symm
        rw [downloadFullFont, countId_append, countId_append,
          countId_removeById_ne d _ _ hppi,
          countId_removeById_ne d _ _
            (fun hc => preview_id_ne_full_id i fid hc.symm),
          countId_singleton, countId_singleton,
          if_neg (fun hc =>
            preview_id_ne_full_id fid i (beq_iff_eq.mp hc).symm),
          if_neg (fun hc => hffi (beq_iff_eq.mp hc))]
        omega
  · next hnoprev =>
      split
      · next hcond =>
        rw [Bool.and_eq_true] at hcond
        have hnone : countId d ("font-full-" ++ i) = 0 :=
          (getById_eq_none_iff _ _).mp
            (Option.isNone_iff_eq_none.mp hcond.1)
        have hprev0 : countId d ("font-preview-" ++ i) = 0 := by
          rw [← getById_eq_none_iff]
          exact Option.not_isSome_iff_eq_none.mp hnoprev
        by_cases hfid : fid = i
        · subst hfid
          rw [downloadFullFont, countId_append, countId_append,
            countId_singleton, countId_singleton,
            if_neg (fun hc =>
              preview_id_ne_full_id fid fid (beq_iff_eq.mp hc).symm),
            if_pos (beq_iff_eq.mpr rfl), hnone, hprev0]
        · have hffi : ("font-full-" ++ i) ≠ ("font-full-" ++ fid) :=
            fun hc => hfid (string_append_left_cancel hc).symm
          rw [downloadFullFont, countId_append, countId_append,
            countId_singleton, countId_singleton,
            if_neg (fun hc =>
              preview_id_ne_full_id fid i (beq_iff_eq.mp hc).symm),
            if_neg (fun hc => hffi (beq_iff_eq.mp hc))]
          omega
      · exact hinv_fid

/-- `checkPreviewFont` preserves the per-font at-most-one invariant when no
preview link for the font is present at call time. -/
theorem checkPreviewFont_preserves (avail : Bool) (font : Font) (d : Doc)
    (hinv : AtMostOnePerFont d)
    (hg : getById d
        ("font-preview-" ++ checkPreviewFont_fontId font.family) = none) :
    AtMostOnePerFont (checkPreviewFont avail font d) := by
  intro fid
  have hck := checkPreviewFont_eq avail font d
  generalize hgen : checkPreviewFont_fontId font.family = i at hck hg
  rw [hck]
  have hinv_fid := hinv fid
  split
  · next hcond =>
      rw [Bool.and_eq_true] at hcond
      have hfull0 : countId d ("font-full-" ++ i) = 0 :=
        (getById_eq_none_iff _ _).mp
          (Option.isNone_iff_eq_none.mp hcond.1)
      have hprev0 : countId d ("font-preview-" ++ i) = 0 :=
        (getById_eq_none_iff _ _).mp hg
      by_cases hfid : fid = i
      · subst hfid
        rw [downloadPreviewFont, countId_append, countId_append,
          countId_singleton, countId_singleton,
          if_pos (beq_iff_eq.mpr rfl),
          if_neg (fun hc => preview_id_ne_full_id fid fid (beq_iff_eq.mp hc)),
          hfull0, hprev0]
      · have hppi : ("font-preview-" ++ i) ≠ ("font-preview-" ++ fid) :=
          fun hc => hfid (string_append_left_cancel hc).symm
        rw [downloadPreviewFont, countId_append, countId_append,
          countId_singleton, countId_singleton,
          if_neg (fun hc => hppi (beq_iff_eq.mp hc)),
          if_neg (fun hc => preview_id_ne_full_id i fid (beq_iff_eq.mp hc))]
        omega
  · exact hinv_fid

/-- The at-most-one invariant is preserved along every guarded trace. -/
theorem runOps_preserves (ops : List FontOp) (d : Doc)
    (hinv : AtMostOnePerFont d) (hg : GuardedOps d ops) :
    AtMostOnePerFont (runOps d ops) := by
  induction ops generalizing d with
  | nil => exact hinv
  | cons op ops ih =>
      obtain ⟨hop, hg'⟩ := hg
      refine ih (applyOp d op) ?_ hg'
      cases op with
      | full f a => exact checkFullFont_preserves a f d hinv
      | preview f a => exact checkPreviewFont_preserves a f d hinv hop

/-- C2 counterexample: starting from the empty document — which contains at
most one of the two stylesheets of every font — the call sequence
`checkPreviewFont`, `checkPreviewFont`, `checkFullFont` for the font `"a"`
(never available locally) leaves BOTH the preview link and the full link for
the font id `a` in the document head at once. -/
theorem preview_and_full_both_present :
    AtMostOnePerFont ([] : Doc) ∧
    (getById
        (runOps []
          [FontOp.preview ⟨"a", ["regular"]⟩ false,
           FontOp.preview ⟨"a", ["regular"]⟩ false,
           FontOp.full ⟨"a", ["regular"]⟩ false])
        ("font-preview-" ++ "a")).isSome = true ∧
    (getById
        (runOps []
          [FontOp.preview ⟨"a", ["regular"]⟩ false,
           FontOp.preview ⟨"a", ["regular"]⟩ false,
           FontOp.full ⟨"a", ["regular"]⟩ false])
        ("font-full-" ++ "a")).isSome = true :=
  ⟨fun _ => Nat.zero_le 1, by decide, by decide⟩

/-- C2 (amended): starting from a document containing at most one of the two
stylesheets of every font, after any sequence of `checkFullFont` and
`checkPreviewFont` calls in which `checkPreviewFont` is never invoked while a
preview link for the same font is already present, the document never
contains both the preview and the full stylesheet of the same font id at
once. -/
theorem no_preview_and_full_of_guarded (ops : List FontOp) (d : Doc)
    (hinv : AtMostOnePerFont d) (hg : GuardedOps d ops) (fid : String) :
    ¬ ((getById (runOps d ops) ("font-preview-" ++ fid)).isSome = true ∧
       (getById (runOps d ops) ("font-full-" ++ fid)).isSome = true) := by
  rintro ⟨hp, hf⟩
  have h := runOps_preserves ops d hinv hg fid
  have hp' := (getById_isSome_iff _ _).mp hp
  have hf' := (getById_isSome_iff _ _).mp hf
  omega

/-- Witness for C2 (amended): a guarded preview-then-full sequence from the
empty document never shows both links for font id `a`. -/
theorem no_preview_and_full_of_guarded_witness :
    ¬ ((getById
          (runOps []
            [FontOp.preview ⟨"a", ["regular"]⟩ false,
             FontOp.full ⟨"a", ["regular"]⟩ false])
          ("font-preview-" ++ "a")).isSome = true ∧
       (getById
          (runOps []
            [FontOp.preview ⟨"a", ["regular"]⟩ false,
             FontOp.full ⟨"a", ["regular"]⟩ false])
          ("font-full-" ++ "a")).isSome = true) :=
  no_preview_and_full_of_guarded
    [FontOp.preview ⟨"a", ["regular"]⟩ false,
     FontOp.full ⟨"a", ["regular"]⟩ false]
    [] (fun _ => Nat.zero_le 1) ⟨rfl, trivial, trivial⟩ "a"

end FontPicker
